import Mathlib

/-!
# Verification of the RESP codec and session logic of `redis-cli-standalone`

This file embeds the Go sources (`protocal.go`, `connector.go`, `main.go`)
shallowly in Lean.  A byte stream is modelled as `List Char` (each `Char`
standing for one byte; all inputs of interest are 8-bit).  The `bufio.Reader`
operations used by the code (`ReadByte`, `ReadLine`, `io.ReadAtLeast`) become
pure functions from a stream to `Except` of a result and the remaining stream.
`strconv.Atoi` becomes `atoi` (the error it returns is discarded by every call
site in the repository, so only the returned integer is modelled; the model is
exact for all inputs whose value fits in an `int64`, and no claim exercises
larger ones).  Go run-time panics (`make` with a negative length, failing type
assertions) are modelled as an explicit error constructor so that they stay
distinguishable from ordinary returned errors.
-/

namespace RedisCli

/-- Errors a decode can end in.  `eof` is `io.EOF` from an empty read,
`unexpectedEof` is `io.ErrUnexpectedEOF` from `io.ReadAtLeast` stopping short,
`unknownType c` is the `"unknown response type: %c"` error of `ReadValue`,
`makeslicePanic` is the run-time panic of `make` called with a negative
length, and `outOfFuel` is an artifact of the fuel-indexed recursion (never
reachable with the fuel `ReadValue` supplies). -/
inductive DecErr : Type where
  | eof : DecErr
  | unexpectedEof : DecErr
  | unknownType (c : Char) : DecErr
  | makeslicePanic : DecErr
  | outOfFuel : DecErr
  deriving DecidableEq

/-- The `any`-typed `Val` field of Go's `TypedVal`: its dynamic type is one of
`string`, `int`, `[]*TypedVal` or `nil` (so says the comment on the struct). -/
inductive GoAny : Type where
  | str (s : List Char) : GoAny
  | intv (i : Int) : GoAny
  | arr (elems : List (Char × GoAny)) : GoAny
  | null : GoAny

/-- Go's `TypedVal` struct: a one-byte type tag and the `any` payload. -/
abbrev TypedVal := Char × GoAny

/-- `bufio.Reader.ReadByte`: the first byte, or `io.EOF`. -/
def readByte : List Char → Except DecErr (Char × List Char)
  | [] => .error .eof
  | c :: rest => .ok (c, rest)

/-- `bufio.Reader.ReadLine`: take bytes up to the first `'\n'`; the `'\n'`
and one `'\r'` directly before it are dropped.  At end of input with no bytes
at all the result is `io.EOF`; a non-empty final chunk without `'\n'` is
returned as a line with no error and no `'\r'`-stripping, matching `bufio`. -/
def readLine : List Char → Except DecErr (List Char × List Char)
  | [] => .error .eof
  | c :: rest =>
    if c = '\n' then .ok ([], rest)
    else if c = '\r' ∧ rest.head? = some '\n' then .ok ([], rest.tail)
    else
      match readLine rest with
      | .ok (line, rest') => .ok (c :: line, rest')
      | .error _ => .ok ([c], [])

/-- `io.ReadAtLeast(r, buf, n)` with `len(buf) = n`: exactly `n` bytes, or
`io.EOF` / `io.ErrUnexpectedEOF` when the stream is too short. -/
def readN (n : Nat) (s : List Char) : Except DecErr (List Char × List Char) :=
  if n ≤ s.length then .ok (s.take n, s.drop n)
  else if s.length = 0 then .error .eof
  else .error .unexpectedEof

/-- Digits-only parse helper for `atoi`: the value of a non-empty all-digit
string, `none` otherwise (mirroring the accumulate-left loop of `Atoi`). -/
def digitsVal (s : List Char) : Option Nat :=
  if s ≠ [] ∧ s.all Char.isDigit then
    some (s.foldl (fun acc c => acc * 10 + (c.toNat - '0'.toNat)) 0)
  else none

/-- `strconv.Atoi` as used by the repository: every call site discards the
error, and `Atoi` returns `0` together with an error on any syntactically
invalid input, so the model returns just the integer, with `0` for invalid
input.  (Overflow clamping beyond `int64` is not modelled; no claim feeds
`atoi` an out-of-range number.) -/
def atoi (s : List Char) : Int :=
  match s with
  | [] => 0
  | c :: rest =>
    if c = '-' then
      match digitsVal rest with
      | some n => -(n : Int)
      | none => 0
    else if c = '+' then
      match digitsVal rest with
      | some n => (n : Int)
      | none => 0
    else
      match digitsVal (c :: rest) with
      | some n => (n : Int)
      | none => 0

/-- The decimal digit `d` (`d < 10`) as a character. -/
def digitChar (d : Nat) : Char := Char.ofNat ('0'.toNat + d)

/-- Little-endian digit characters of `n` (`fmt`/`strconv` rendering helper). -/
def natReprLE (n : Nat) : List Char :=
  if h : n < 10 then [digitChar n]
  else digitChar (n % 10) :: natReprLE (n / 10)
decreasing_by exact Nat.div_lt_self (by omega) (by omega)

/-- Decimal rendering of a natural number, as Go's `fmt`/`strconv` print it. -/
def natRepr (n : Nat) : List Char := (natReprLE n).reverse

/-- Decimal rendering of an integer (`%d`, `fmt.Sprint`). -/
def intRepr (i : Int) : List Char :=
  if i < 0 then '-' :: natRepr i.natAbs else natRepr i.natAbs

/-- The `for i := 0; i < count; i++` loop of the `'*'` branch of `ReadValue`:
decode `n` sub-values in order with the given sub-decoder; the first failing
sub-decode aborts the whole loop. -/
def readListF (dec : List Char → Except DecErr (TypedVal × List Char)) :
    Nat → List Char → Except DecErr (List TypedVal × List Char)
  | 0, s => .ok ([], s)
  | n+1, s => do
    let (v, s1) ← dec s
    let (vs, s2) ← readListF dec n s1
    pure (v :: vs, s2)

/-- `ReadValue` of `protocal.go` (lines 25–82), indexed by fuel (the fuel
bound is discharged by `ReadValue` below; it never runs out there).  The
branches follow the Go `switch` in source order.  A `ReadLine` failure can
occur only on an exhausted stream and is surfaced where it happens; the Go
code sometimes carries such an `err` through a few more statements (whose
reads then also fail on the same exhausted stream) before returning it, with
the same returned error.  `make` with a negative length is a run-time panic
in Go, modelled as the distinguished outcome `makeslicePanic`; note that the
`'*'` branch applies `make([]*TypedVal, count)` to any negative count,
including `-1`, before any null-array handling could take place. -/
def readValueF : Nat → List Char → Except DecErr (TypedVal × List Char)
  | 0, _ => .error .outOfFuel
  | fuel+1, s => do
    let (typ, s1) ← readByte s
    if typ = '+' then
      let (line, s2) ← readLine s1
      pure ((typ, .str line), s2)
    else if typ = '-' then
      let (line, s2) ← readLine s1
      pure ((typ, .str line), s2)
    else if typ = ':' then
      let (line, s2) ← readLine s1
      pure ((typ, .intv (atoi line)), s2)
    else if typ = '$' then
      let (line, s2) ← readLine s1
      let length := atoi line
      if length = -1 then
        pure ((typ, .null), s2)
      else if length = 0 then
        let (_, s3) ← readLine s2
        pure ((typ, .str []), s3)
      else if length < 0 then
        .error .makeslicePanic
      else
        let (payload, s3) ← readN length.toNat s2
        let (_, s4) ← readLine s3
        pure ((typ, .str payload), s4)
    else if typ = '*' then
      let (line, s2) ← readLine s1
      let count := atoi line
      if count < 0 then
        .error .makeslicePanic
      else
        let (elems, s3) ← readListF (readValueF fuel) count.toNat s2
        pure ((typ, .arr elems), s3)
    else
      .error (.unknownType typ)

/-- `ReadValue` applied to a finite stream: fuel `length + 1` always
suffices because every nested decode consumes at least its type-tag byte. -/
def ReadValue (s : List Char) : Except DecErr (TypedVal × List Char) :=
  readValueF (s.length + 1) s

/-- One hexadecimal digit (lower case), for `\xHH` escapes. -/
def hexDigit (n : Nat) : Char :=
  if n < 10 then digitChar n else Char.ofNat ('a'.toNat + (n - 10))

/-- One byte under Go's `%q` (`strconv.Quote`): the named single-character
escapes, printable ASCII verbatim, everything else as `\xHH`.  Exact for
ASCII; a byte ≥ 0x7f is rendered `\xHH` (for a valid multi-byte UTF-8 rune
Go would print the decoded rune instead, which a byte-level model cannot
see; no claim prints non-ASCII text). -/
def quoteChar (c : Char) : List Char :=
  if c = '"' then ['\\', '"']
  else if c = '\\' then ['\\', '\\']
  else if c = '\x07' then ['\\', 'a']
  else if c = '\x08' then ['\\', 'b']
  else if c = '\x0c' then ['\\', 'f']
  else if c = '\n' then ['\\', 'n']
  else if c = '\r' then ['\\', 'r']
  else if c = '\t' then ['\\', 't']
  else if c = '\x0b' then ['\\', 'v']
  else if 0x20 ≤ c.toNat ∧ c.toNat < 0x7f then [c]
  else ['\\', 'x', hexDigit (c.toNat / 16 % 16), hexDigit (c.toNat % 16)]

/-- Go's `%q` on a string: double quotes around the escaped bytes. -/
def quoteGo (s : List Char) : List Char :=
  '"' :: (s.map quoteChar).flatten ++ ['"']

mutual

/-- `PrintVal` (protocal.go lines 86–124), returning the bytes written to the
writer.  The `res.Val == nil` check precedes the type switch, for every tag,
exactly as in the source; the switch cases then follow in source order, and
a tag outside the five known ones prints nothing (the switch has no default
case).  For a tag/payload combination where Go's `fmt` verb would not match
the payload's dynamic type (e.g. tag `':'` with a string payload) the source
would print a `fmt` verb-mismatch placeholder; such combinations can never
come out of `ReadValue` and are rendered here as empty output. -/
def PrintVal : TypedVal → Bool → List Char
  | (t, v), raw =>
    match v with
    | .null => if raw then ['\n'] else "(nil)\n".toList
    | .str s =>
      if t = '+' then s ++ ['\n']
      else if t = '$' then (if raw then s ++ ['\n'] else quoteGo s ++ ['\n'])
      else if t = '-' then
        (if raw then s ++ ['\n'] else "(error) ".toList ++ s ++ ['\n'])
      else []
    | .intv i =>
      if t = ':' then
        (if raw then intRepr i ++ ['\n'] else "(integer) ".toList ++ intRepr i ++ ['\n'])
      else []
    | .arr xs => if t = '*' then printElems xs 0 raw else []
termination_by p _ => sizeOf p

/-- The `for i, v := range res.Val.([]*TypedVal)` loop of `PrintVal`: each
element is printed by one recursive call, prefixed by `i+1` and `") "` unless
in raw mode. -/
def printElems : List TypedVal → Nat → Bool → List Char
  | [], _, _ => []
  | x :: rest, i, raw =>
    (if raw then [] else natRepr (i + 1) ++ [')', ' ']) ++
      PrintVal x raw ++ printElems rest (i + 1) raw
termination_by l _ _ => sizeOf l

end

/-! ## The session layer (`connector.go`, `main.go`)

The effectful steps (dialing, socket writes, the decode of a reply) are
parameters of the functions below: each one stands for the outcome the
corresponding Go call would produce, and the Lean function reproduces the
control flow of the Go source around them. -/

/-- Failures of the session layer: a dial/TLS establishment failure, a
write/read failure, a decode failure, or a Go run-time panic (failed type
assertion or out-of-range index). -/
inductive SessionErr : Type where
  | dialErr : SessionErr
  | ioErr : SessionErr
  | decodeErr (e : DecErr) : SessionErr
  | goPanic : SessionErr
  deriving DecidableEq

/-- `unicode.IsSpace` restricted to bytes (exact for ASCII; the non-ASCII
space code points never appear in any claim's command text). -/
def isSpaceGo (c : Char) : Bool :=
  c = ' ' ∨ c = '\t' ∨ c = '\n' ∨ c = '\x0b' ∨ c = '\x0c' ∨ c = '\r'

/-- `strings.Fields`: the maximal runs of non-space bytes. -/
def fields (s : List Char) : List (List Char) :=
  (s.splitOnP isSpaceGo).filter (· ≠ [])

/-- `strings.EqualFold`, byte-wise case folding (exact for ASCII). -/
def equalFold (a b : List Char) : Bool :=
  a.map Char.toLower == b.map Char.toLower

/-- `isCmd` (main.go lines 150–152).  Go indexes `strings.Fields(input)[0]`
and would panic on an all-space input; callers never pass one (the
interactive loop drops empty lines) and no claim does either, so the empty
case is mapped to `false` here. -/
def isCmd (input cmd : List Char) : Bool :=
  match fields input with
  | [] => false
  | f :: _ => equalFold f cmd

/-- Result of the tracked-database update: a new value for `args.Db`, or a
Go run-time panic (failed `tv.Val.(string)` assertion, or `Fields(input)[1]`
out of range). -/
inductive DbEffect : Type where
  | newDb (d : Int) : DbEffect
  | goPanic : DbEffect
  deriving DecidableEq

/-- The `args.Db` side effect of `ExecPrint` (connector.go lines 251–254):
`if isCmd(input, "select") && tv.Val.(string) == "OK" { args.Db, _ =
strconv.Atoi(strings.Fields(input)[1]) }`.  Only the reply's `Val` text is
consulted — never its type tag — and nothing here ever writes `0` on its
own. -/
def execPrintDb (input : List Char) (tv : TypedVal) (db : Int) : DbEffect :=
  if isCmd input ("select".toList) then
    match tv.2 with
    | .str s =>
      if s = "OK".toList then
        match (fields input).drop 1 with
        | arg :: _ => .newDb (atoi arg)
        | [] => .goPanic
      else .newDb db
    | _ => .goPanic
  else .newDb db

/-- `selectDb` (connector.go lines 178–192): run during `Connect`; skipped
when `args.Db == 0`; `reply` is the outcome of `Exec("SELECT <db>")`.
Returns the new `args.Db` and `selectDb`'s return value.  A reply whose
type tag is `'-'` (TypeError) resets the tracked index to `0`. -/
def selectDb (db : Int) (reply : Except SessionErr TypedVal) : Int × Option SessionErr :=
  if db = 0 then (db, none)
  else
    match reply with
    | .error e => (db, some e)
    | .ok tv => if tv.1 = '-' then (0, none) else (db, none)

/-- `Connect` (connector.go lines 37–62): `dial` is the outcome of
`net.Dial`/`tls.Dial`, `authRes` and `selRes` the return values `c.auth()`
and `c.selectDb()` would produce on the established connection.  The result
is `(Connect`'s return value, the `connected` flag)`.  Lines 56–59 compute
an `err` from the handshake exactly as below, but line 61 returns `nil`
unconditionally, so that `err` is dead. -/
def Connect (dial : Option SessionErr) (authRes : Option SessionErr)
    (selRes : Option SessionErr) : Option SessionErr × Bool :=
  match dial with
  | some e => (some e, false)
  | none =>
    let _err : Option SessionErr :=
      match authRes with
      | some e => some e
      | none => selRes
    (none, true)

/-- Observable events of the repeat-with-interval runner: the `i`-th call of
`exeFunc`, or one `time.Sleep` pause. -/
inductive RunEv : Type where
  | exec (i : Nat) : RunEv
  | sleep : RunEv
  deriving DecidableEq

/-- The `for i := 0; i < args.Repeat; i++` loop of `singleCmd` (main.go
lines 399–407), from iteration `i` on: `res i` is the outcome of the `i`-th
`exeFunc` call; `pause` is whether `dua > 0` (the float-seconds interval
converted to a duration, abstracted to its sign).  Returns the event trace
and the loop's return value. -/
def repeatLoop (res : Nat → Option SessionErr) (rep : Int) (pause : Bool)
    (i : Nat) : List RunEv × Option SessionErr :=
  if _h : (i : Int) < rep then
    match res i with
    | some e => ([.exec i], some e)
    | none =>
      let t := repeatLoop res rep pause (i + 1)
      (.exec i :: ((if (i : Int) < rep - 1 ∧ pause then [.sleep] else []) ++ t.1), t.2)
  else ([], none)
termination_by (rep - i).toNat
decreasing_by omega

/-- The repeat-with-interval part of `singleCmd` (main.go lines 394–408),
after a successful `Connect`: `args.Repeat == 0` executes the command once,
outside the loop; otherwise the loop above runs from `i = 0`. -/
def repeatRun (res : Nat → Option SessionErr) (rep : Int) (pause : Bool) :
    List RunEv × Option SessionErr :=
  if rep = 0 then ([.exec 0], res 0)
  else repeatLoop res rep pause 0

/-- Observable events of the SCAN pagination loop: one `Exec` of a SCAN
command line, or one `PrintVal` of a key. -/
inductive ScanEv : Type where
  | req (cmdLine : List Char) : ScanEv
  | key (v : TypedVal) : ScanEv

/-- `fmt.Sprintf("SCAN %s MATCH %s COUNT %d", cursor, args.Pattern,
args.Count)` (main.go line 416). -/
def scanCmd (cursor pattern : List Char) (count : Int) : List Char :=
  "SCAN ".toList ++ cursor ++ " MATCH ".toList ++ pattern ++
    " COUNT ".toList ++ intRepr count

/-- The SCAN pagination loop (main.go lines 414–427), with the successive
outcomes of `Exec` supplied as a list consumed in order (an exhausted list
stands for a connection that yields no further reply, which `Exec` reports
as an I/O failure).  Per iteration: issue the SCAN command built from the
current cursor; on a reply, print every element of
`tv.Val.([]*TypedVal)[1].Val.([]*TypedVal)` in order, then load the next
cursor from `tv.Val.([]*TypedVal)[0].Val.(string)` and stop if it equals
`"0"`.  Failed type assertions and out-of-range indexes are Go panics. -/
def scanRun (pattern : List Char) (cnt : Int) (cursor : List Char) :
    List (Except SessionErr TypedVal) → List ScanEv × Option SessionErr
  | [] => ([.req (scanCmd cursor pattern cnt)], some .ioErr)
  | r :: rest =>
    match r with
    | .error e => ([.req (scanCmd cursor pattern cnt)], some e)
    | .ok tv =>
      match tv.2 with
      | .arr elems =>
        match elems[1]? with
        | some kv =>
          match kv.2 with
          | .arr keys =>
            let evs := .req (scanCmd cursor pattern cnt) :: keys.map ScanEv.key
            match elems[0]? with
            | some cv =>
              match cv.2 with
              | .str c =>
                if c = ['0'] then (evs, none)
                else
                  let t := scanRun pattern cnt c rest
                  (evs ++ t.1, t.2)
              | _ => (evs, some .goPanic)
            | none => (evs, some .goPanic)
          | _ => ([.req (scanCmd cursor pattern cnt)], some .goPanic)
        | none => ([.req (scanCmd cursor pattern cnt)], some .goPanic)
      | _ => ([.req (scanCmd cursor pattern cnt)], some .goPanic)

/-- Written from the words of the SCAN claim, not from the source: the
pagination loop "issues SCAN cursor MATCH pattern COUNT count, renders every
key of each reply's key-array immediately in page order, feeds the cursor
text returned by each reply into the next request, and terminates exactly
when the returned cursor text equals 0".  Each page is given as (returned
cursor text, keys). -/
def scanClaimTrace (pattern : List Char) (cnt : Int) (cursor : List Char) :
    List (List Char × List TypedVal) → List ScanEv
  | [] => [.req (scanCmd cursor pattern cnt)]
  | (c, keys) :: rest =>
    .req (scanCmd cursor pattern cnt) ::
      (keys.map ScanEv.key ++
        (if c = ['0'] then [] else scanClaimTrace pattern cnt c rest))

/-! ## The hand-constructed wire encoding (claim C4's round-trip source) -/

mutual

/-- A valid RESP byte encoding of a tree, hand-constructed following the
wire grammar of the spec (§4.1, §6).  This is claim-side: the round-trip
claim quantifies over such encodings and feeds them to `ReadValue`. -/
def respEncode : TypedVal → List Char
  | (t, v) =>
    match v with
    | .str s =>
      if t = '$' then
        '$' :: (natRepr s.length ++ ['\r', '\n'] ++ s ++ ['\r', '\n'])
      else t :: (s ++ ['\r', '\n'])
    | .intv i => ':' :: (intRepr i ++ ['\r', '\n'])
    | .arr xs => '*' :: (natRepr xs.length ++ ['\r', '\n'] ++ respEncodeList xs)
    | .null => if t = '*' then "*-1\r\n".toList else "$-1\r\n".toList
termination_by p => sizeOf p

/-- Concatenation of the encodings of an array's elements, in order. -/
def respEncodeList : List TypedVal → List Char
  | [] => []
  | x :: xs => respEncode x ++ respEncodeList xs
termination_by l => sizeOf l

end

/-- The trees the round-trip claim ranges over, as amended: every tag/payload
pair allowed by the data model (§3), simple and error lines free of the line
delimiter bytes, integers within `int64` (Go's `Atoi` clamps outside that
range), and no null-array marker (see the counterexample: the decoder
panics on `*-1`).  Null bulk strings, empty strings, empty arrays and
arbitrary nesting are all included. -/
inductive WfEnc : TypedVal → Prop where
  | simple (s : List Char) (hr : '\r' ∉ s) (hn : '\n' ∉ s) :
      WfEnc ('+', .str s)
  | errv (s : List Char) (hr : '\r' ∉ s) (hn : '\n' ∉ s) :
      WfEnc ('-', .str s)
  | intv (i : Int) (h1 : -(2 ^ 63) ≤ i) (h2 : i < 2 ^ 63) :
      WfEnc (':', .intv i)
  | bulk (s : List Char) : WfEnc ('$', .str s)
  | bulkNull : WfEnc ('$', .null)
  | arr (xs : List TypedVal) (h : ∀ x ∈ xs, WfEnc x) : WfEnc ('*', .arr xs)

/-! ## Basic lemmas about the stream primitives and number parsing -/

theorem digitChar_isDigit {d : Nat} (h : d < 10) : (digitChar d).isDigit = true := by
  interval_cases d <;> decide

theorem digitChar_toNat {d : Nat} (h : d < 10) : (digitChar d).toNat = 48 + d := by
  interval_cases d <;> decide

theorem isDigit_ne_lf {c : Char} (h : c.isDigit = true) : c ≠ '\n' := by
  rintro rfl; exact absurd h (by decide)

theorem isDigit_ne_cr {c : Char} (h : c.isDigit = true) : c ≠ '\r' := by
  rintro rfl; exact absurd h (by decide)

theorem isDigit_ne_minus {c : Char} (h : c.isDigit = true) : c ≠ '-' := by
  rintro rfl; exact absurd h (by decide)

theorem isDigit_ne_plus {c : Char} (h : c.isDigit = true) : c ≠ '+' := by
  rintro rfl; exact absurd h (by decide)

/-- Digit-string facts about `natReprLE n`: non-empty, all digits, and its
reverse folds back to `n` under the accumulate-left step of `Atoi`. -/
theorem natReprLE_spec (n : Nat) :
    natReprLE n ≠ [] ∧ (∀ c ∈ natReprLE n, c.isDigit = true) ∧
      ∀ acc : Nat, (natReprLE n).reverse.foldl
          (fun acc c => acc * 10 + (c.toNat - '0'.toNat)) acc =
        acc * 10 ^ (natReprLE n).length + n := by
  induction n using Nat.strong_induction_on with
  | _ n ih =>
    by_cases h : n < 10
    · rw [natReprLE, dif_pos h]
      refine ⟨by simp, by simpa using digitChar_isDigit h, ?_⟩
      intro acc
      simp [digitChar_toNat h]
    · rw [natReprLE, dif_neg h]
      obtain ⟨hne, hdig, hval⟩ := ih (n / 10) (Nat.div_lt_self (by omega) (by omega))
      refine ⟨by simp, ?_, ?_⟩
      · intro c hc
        rcases List.mem_cons.mp hc with hc | hc
        · exact hc ▸ digitChar_isDigit (Nat.mod_lt _ (by omega))
        · exact hdig c hc
      · intro acc
        rw [List.reverse_cons, List.foldl_append, hval acc]
        simp only [List.foldl_cons, List.foldl_nil, List.length_cons]
        rw [digitChar_toNat (Nat.mod_lt _ (by omega))]
        have : 48 + n % 10 - '0'.toNat = n % 10 := by
          have h0 : '0'.toNat = 48 := rfl
          omega
        rw [this, pow_succ]
        have hmod := Nat.div_add_mod n 10
        ring_nf
        omega

theorem natRepr_ne_nil (n : Nat) : natRepr n ≠ [] := by
  have := (natReprLE_spec n).1
  simp [natRepr]
  exact this

theorem natRepr_isDigit {n : Nat} {c : Char} (hc : c ∈ natRepr n) :
    c.isDigit = true :=
  (natReprLE_spec n).2.1 c (List.mem_reverse.mp hc)

theorem digitsVal_natRepr (n : Nat) : digitsVal (natRepr n) = some n := by
  have h1 := natRepr_ne_nil n
  have h2 : (natRepr n).all Char.isDigit = true :=
    List.all_eq_true.mpr fun c hc => natRepr_isDigit hc
  rw [digitsVal, if_pos ⟨h1, h2⟩]
  have := (natReprLE_spec n).2.2 0
  simp only [natRepr]
  rw [this]
  simp

theorem atoi_natRepr (n : Nat) : atoi (natRepr n) = n := by
  obtain ⟨c, cs, hcs⟩ := List.exists_cons_of_ne_nil (natRepr_ne_nil n)
  have hdig : c.isDigit = true := natRepr_isDigit (hcs ▸ List.mem_cons_self c cs)
  rw [hcs, atoi, if_neg (isDigit_ne_minus hdig), if_neg (isDigit_ne_plus hdig),
    ← hcs, digitsVal_natRepr]

theorem atoi_intRepr (i : Int) : atoi (intRepr i) = i := by
  by_cases h : i < 0
  · rw [intRepr, if_pos h, atoi, if_pos rfl, digitsVal_natRepr]
    show -(i.natAbs : Int) = i
    omega
  · rw [intRepr, if_neg h, atoi_natRepr]
    omega

theorem natRepr_no_lf {n : Nat} : '\n' ∉ natRepr n :=
  fun h => isDigit_ne_lf (natRepr_isDigit h) rfl

theorem natRepr_no_cr {n : Nat} : '\r' ∉ natRepr n :=
  fun h => isDigit_ne_cr (natRepr_isDigit h) rfl

theorem intRepr_no_lf {i : Int} : '\n' ∉ intRepr i := by
  rw [intRepr]
  split
  · intro h
    rcases List.mem_cons.mp h with h | h
    · exact absurd h.symm (by decide)
    · exact natRepr_no_lf h
  · exact natRepr_no_lf

/-- `ReadLine` on a delimiter-free line followed by CRLF and the rest. -/
theorem readLine_append {l : List Char} (hn : '\n' ∉ l) (rest : List Char) :
    readLine (l ++ '\r' :: '\n' :: rest) = .ok (l, rest) := by
  induction l with
  | nil => simp [readLine]
  | cons c l ih =>
    have hc : c ≠ '\n' := fun h => hn (h ▸ List.mem_cons_self c l)
    have hn' : '\n' ∉ l := fun h => hn (List.mem_cons_of_mem _ h)
    have hhead : (l ++ '\r' :: '\n' :: rest).head? ≠ some '\n' := by
      cases l with
      | nil => simp
      | cons d l' =>
        have hd : d ≠ '\n' := fun h => hn' (h ▸ List.mem_cons_self d l')
        simp [hd]
    rw [List.cons_append, readLine, if_neg hc,
      if_neg (fun h => hhead h.2), ih hn']

/-- `ReadAtLeast` on a stream that starts with the wanted `n` bytes. -/
theorem readN_append {p : List Char} (rest : List Char) :
    readN p.length (p ++ rest) = .ok (p, rest) := by
  rw [readN, if_pos (by simp)]
  simp

/-! ## Step lemmas for one `ReadValue` dispatch -/

theorem exc_bind_ok {ε α β : Type} (a : α) (f : α → Except ε β) :
    (Except.ok a : Except ε α) >>= f = f a := rfl

theorem exc_bind_error {ε α β : Type} (e : ε) (f : α → Except ε β) :
    (Except.error e : Except ε α) >>= f = .error e := rfl

theorem exc_pure {ε α : Type} (a : α) : (pure a : Except ε α) = .ok a := rfl

theorem rv_nil (f : Nat) : readValueF (f + 1) [] = .error .eof := rfl

theorem rv_simple (f : Nat) {s line rest : List Char}
    (h : readLine s = .ok (line, rest)) :
    readValueF (f + 1) ('+' :: s) = .ok (('+', .str line), rest) := by
  simp [readValueF, readByte, exc_bind_ok, h]

theorem rv_errline (f : Nat) {s line rest : List Char}
    (h : readLine s = .ok (line, rest)) :
    readValueF (f + 1) ('-' :: s) = .ok (('-', .str line), rest) := by
  simp [readValueF, readByte, exc_bind_ok, h]

theorem rv_int (f : Nat) {s line rest : List Char}
    (h : readLine s = .ok (line, rest)) :
    readValueF (f + 1) (':' :: s) = .ok ((':', .intv (atoi line)), rest) := by
  simp [readValueF, readByte, exc_bind_ok, h]

theorem rv_bulk_null (f : Nat) {s line rest : List Char}
    (h : readLine s = .ok (line, rest)) (hm : atoi line = -1) :
    readValueF (f + 1) ('$' :: s) = .ok (('$', .null), rest) := by
  simp [readValueF, readByte, exc_bind_ok, exc_pure, h, hm]

theorem rv_bulk_zero (f : Nat) {s line rest l2 rest2 : List Char}
    (h : readLine s = .ok (line, rest)) (hm : atoi line = 0)
    (h2 : readLine rest = .ok (l2, rest2)) :
    readValueF (f + 1) ('$' :: s) = .ok (('$', .str []), rest2) := by
  simp [readValueF, readByte, exc_bind_ok, exc_pure, h, hm, h2]

theorem rv_bulk_pos (f : Nat) {s line rest payload rest2 l3 rest3 : List Char}
    (h : readLine s = .ok (line, rest)) (hp : 0 < atoi line)
    (hr : readN (atoi line).toNat rest = .ok (payload, rest2))
    (h3 : readLine rest2 = .ok (l3, rest3)) :
    readValueF (f + 1) ('$' :: s) = .ok (('$', .str payload), rest3) := by
  have h1 : atoi line ≠ -1 := by omega
  have h0 : atoi line ≠ 0 := by omega
  have hneg : ¬ atoi line < 0 := by omega
  simp [readValueF, readByte, exc_bind_ok, exc_pure, h, h1, h0, hneg, hr, h3]

theorem rv_bulk_short (f : Nat) {s line rest : List Char} {e : DecErr}
    (h : readLine s = .ok (line, rest)) (hp : 0 < atoi line)
    (hr : readN (atoi line).toNat rest = .error e) :
    readValueF (f + 1) ('$' :: s) = .error e := by
  have h1 : atoi line ≠ -1 := by omega
  have h0 : atoi line ≠ 0 := by omega
  have hneg : ¬ atoi line < 0 := by omega
  simp [readValueF, readByte, exc_bind_ok, exc_bind_error, h, h1, h0, hneg, hr]

theorem rv_arr_neg (f : Nat) {s line rest : List Char}
    (h : readLine s = .ok (line, rest)) (hm : atoi line < 0) :
    readValueF (f + 1) ('*' :: s) = .error .makeslicePanic := by
  simp [readValueF, readByte, exc_bind_ok, h, hm]

theorem rv_arr_ok (f : Nat) {s line rest rest2 : List Char} {vs : List TypedVal}
    (h : readLine s = .ok (line, rest)) (hm : ¬ atoi line < 0)
    (hl : readListF (readValueF f) (atoi line).toNat rest = .ok (vs, rest2)) :
    readValueF (f + 1) ('*' :: s) = .ok (('*', .arr vs), rest2) := by
  simp [readValueF, readByte, exc_bind_ok, exc_pure, h, hm, hl]

theorem rv_arr_err (f : Nat) {s line rest : List Char} {e : DecErr}
    (h : readLine s = .ok (line, rest)) (hm : ¬ atoi line < 0)
    (hl : readListF (readValueF f) (atoi line).toNat rest = .error e) :
    readValueF (f + 1) ('*' :: s) = .error e := by
  simp [readValueF, readByte, exc_bind_ok, exc_bind_error, h, hm, hl]

theorem rv_unknown (f : Nat) {c : Char} (s : List Char)
    (h : c ∉ ['+', '-', ':', '$', '*']) :
    readValueF (f + 1) (c :: s) = .error (.unknownType c) := by
  simp only [List.mem_cons, List.mem_singleton, not_or] at h
  obtain ⟨h1, h2, h3, h4, h5⟩ := h
  simp [readValueF, readByte, exc_bind_ok, h1, h2, h3, h4, by simpa using h5]

/-- The element loop returns exactly as many elements as it was asked for. -/
theorem readListF_length {dec : List Char → Except DecErr (TypedVal × List Char)}
    {n : Nat} {s rest : List Char} {vs : List TypedVal}
    (h : readListF dec n s = .ok (vs, rest)) : vs.length = n := by
  induction n generalizing s vs with
  | zero =>
    rw [readListF] at h
    cases h
    rfl
  | succ n ih =>
    rw [readListF] at h
    cases hd : dec s with
    | error e => simp [hd, exc_bind_error] at h
    | ok p =>
      obtain ⟨v, s1⟩ := p
      simp only [hd, exc_bind_ok] at h
      cases hl : readListF dec n s1 with
      | error e => simp [hl, exc_bind_error] at h
      | ok q =>
        obtain ⟨vs2, s2⟩ := q
        simp only [hl, exc_bind_ok, exc_pure, Except.ok.injEq, Prod.mk.injEq] at h
        obtain ⟨rfl, rfl⟩ := h
        simp [ih hl]

/-- `ReadLine` can fail only with `io.EOF` (and only on an empty stream). -/
theorem readLine_error_eof {s : List Char} {e : DecErr}
    (h : readLine s = .error e) : e = .eof := by
  cases s with
  | nil =>
    rw [readLine] at h
    exact (Except.error.injEq _ _ ▸ h.symm :)
  | cons c rest =>
    rw [readLine] at h
    split at h
    · cases h
    · split at h
      · cases h
      · split at h <;> cases h

/-- `ReadAtLeast` can fail only with `io.EOF` or `io.ErrUnexpectedEOF`. -/
theorem readN_error {n : Nat} {s : List Char} {e : DecErr}
    (h : readN n s = .error e) : e = .eof ∨ e = .unexpectedEof := by
  rw [readN] at h
  split at h
  · cases h
  · split at h
    · exact Or.inl (Except.error.injEq _ _ ▸ h.symm :)
    · exact Or.inr (Except.error.injEq _ _ ▸ h.symm :)

/-- Errors of the element loop are errors of the element decoder. -/
theorem readListF_error {dec : List Char → Except DecErr (TypedVal × List Char)}
    {n : Nat} {s : List Char} {e : DecErr}
    (h : readListF dec n s = .error e) :
    ∃ s', dec s' = .error e := by
  induction n generalizing s with
  | zero => rw [readListF] at h; cases h
  | succ n ih =>
    rw [readListF] at h
    cases hd : dec s with
    | error e' =>
      rw [hd, exc_bind_error] at h
      exact ⟨s, hd.trans (congrArg _ (Except.error.injEq _ _ ▸ h :))⟩
    | ok p =>
      obtain ⟨v, s1⟩ := p
      simp only [hd, exc_bind_ok] at h
      cases hl : readListF dec n s1 with
      | error e' =>
        rw [hl, exc_bind_error] at h
        cases h
        exact ih hl
      | ok q =>
        obtain ⟨vs2, s2⟩ := q
        simp only [hl, exc_bind_ok, exc_pure] at h
        cases h

/-- The tag character inside an `unknownType` error is never one of the five
known tags: the error is only ever built in the default branch, after every
tag comparison has failed — at the top level or inside any nested array. -/
theorem rv_unknownType_not_tag (f : Nat) :
    ∀ {s : List Char} {e : Char},
      readValueF f s = .error (.unknownType e) → e ∉ ['+', '-', ':', '$', '*'] := by
  induction f using Nat.strong_induction_on with
  | _ f ih =>
    intro s e h
    cases f with
    | zero => rw [readValueF] at h; simp at h
    | succ f =>
      cases s with
      | nil => rw [rv_nil] at h; simp at h
      | cons c s' =>
        rw [readValueF] at h
        simp only [readByte, exc_bind_ok] at h
        by_cases h1 : c = '+'
        · rw [if_pos h1] at h
          cases hr : readLine s' with
          | ok p =>
            simp only [hr, exc_bind_ok, exc_pure, Except.map_ok] at h
            simp at h
          | error e' =>
            simp only [hr, exc_bind_error, Except.map_error] at h
            rw [readLine_error_eof hr] at h
            simp at h
        rw [if_neg h1] at h
        by_cases h2 : c = '-'
        · rw [if_pos h2] at h
          cases hr : readLine s' with
          | ok p =>
            simp only [hr, exc_bind_ok, exc_pure, Except.map_ok] at h
            simp at h
          | error e' =>
            simp only [hr, exc_bind_error, Except.map_error] at h
            rw [readLine_error_eof hr] at h
            simp at h
        rw [if_neg h2] at h
        by_cases h3 : c = ':'
        · rw [if_pos h3] at h
          cases hr : readLine s' with
          | ok p =>
            simp only [hr, exc_bind_ok, exc_pure, Except.map_ok] at h
            simp at h
          | error e' =>
            simp only [hr, exc_bind_error, Except.map_error] at h
            rw [readLine_error_eof hr] at h
            simp at h
        rw [if_neg h3] at h
        by_cases h4 : c = '$'
        · rw [if_pos h4] at h
          cases hr : readLine s' with
          | error e' =>
            rw [hr, exc_bind_error, readLine_error_eof hr] at h
            simp at h
          | ok p =>
            obtain ⟨line, r⟩ := p
            simp only [hr, exc_bind_ok] at h
            split at h
            · simp [exc_pure] at h
            · split at h
              · cases hr2 : readLine r with
                | ok q =>
                  simp only [hr2, exc_bind_ok, exc_pure, Except.map_ok] at h
                  simp at h
                | error e' =>
                  simp only [hr2, exc_bind_error, Except.map_error] at h
                  rw [readLine_error_eof hr2] at h
                  simp at h
              · split at h
                · simp at h
                · cases hn : readN (atoi line).toNat r with
                  | error e' =>
                    rw [hn, exc_bind_error] at h
                    rcases readN_error hn with rfl | rfl <;> simp at h
                  | ok q =>
                    simp only [hn, exc_bind_ok] at h
                    cases hr2 : readLine q.2 with
                    | ok q2 =>
                      simp only [hr2, exc_bind_ok, exc_pure, Except.map_ok] at h
                      simp at h
                    | error e' =>
                      simp only [hr2, exc_bind_error, Except.map_error] at h
                      rw [readLine_error_eof hr2] at h
                      simp at h
        rw [if_neg h4] at h
        by_cases h5 : c = '*'
        · rw [if_pos h5] at h
          cases hr : readLine s' with
          | error e' =>
            rw [hr, exc_bind_error, readLine_error_eof hr] at h
            simp at h
          | ok p =>
            obtain ⟨line, r⟩ := p
            simp only [hr, exc_bind_ok] at h
            split at h
            · simp at h
            · cases hl : readListF (readValueF f) (atoi line).toNat r with
              | ok q =>
                simp only [hl, exc_bind_ok, exc_pure] at h
                simp at h
              | error e' =>
                rw [hl, exc_bind_error] at h
                cases h
                obtain ⟨s'', hs''⟩ := readListF_error hl
                exact ih f (Nat.lt_succ_self f) hs''
        rw [if_neg h5] at h
        have : c = e := by
          have := (Except.error.injEq _ _ ▸ h :)
          exact (DecErr.unknownType.injEq _ _ ▸ this :)
        subst this
        simp [h1, h2, h3, h4, h5]

/-! ## Claim theorems: the decoder (C1, C2, C3, C6) -/

/-- C1 (code bug): the claim says a `*`-header with count `-1` decodes to
the null array, and that other negative counts pass through a generic
negative-length path; in the code the `'*'` branch has no `-1` check at all
and reaches `make([]*TypedVal, count)` with the negative count, a run-time
panic — for `-1` and for every other negative count alike.  Decode of
`"*-1\r\n"` therefore panics instead of returning the null array. -/
theorem c1_null_array_header_panics :
    ReadValue ("*-1\r\n".toList) = .error .makeslicePanic ∧
    ReadValue ("*-2\r\n".toList) = .error .makeslicePanic ∧
    ReadValue ("*-1\r\n".toList) ≠ .ok (('*', .null), []) := by
  refine ⟨rfl, rfl, fun h => ?_⟩
  rw [show ReadValue ("*-1\r\n".toList) = .error .makeslicePanic from rfl] at h
  exact Except.noConfusion h

/-- C2: BulkString decoding.  `$-1` yields the null payload; `$0` yields the
empty string — a value distinct from null — after consuming the trailing
terminator line; a positive declared length `n` consumes exactly the `n`
payload bytes plus the trailing terminator line and returns that text,
leaving the rest of the stream untouched; and a stream that ends with fewer
than `n` payload bytes makes the decode fail with an end-of-stream decode
error rather than return a truncated value. -/
theorem c2_bulk_string_decode :
    (∀ rest : List Char,
      ReadValue ('$' :: ('-' :: '1' :: '\r' :: '\n' :: rest)) =
        .ok (('$', .null), rest)) ∧
    (∀ rest : List Char,
      ReadValue ('$' :: ('0' :: '\r' :: '\n' :: '\r' :: '\n' :: rest)) =
        .ok (('$', .str []), rest)) ∧
    GoAny.str [] ≠ GoAny.null ∧
    (∀ (n : Nat) (payload rest : List Char), 0 < n → payload.length = n →
      ReadValue ('$' :: (natRepr n ++ '\r' :: '\n' :: (payload ++ '\r' :: '\n' :: rest))) =
        .ok (('$', .str payload), rest)) ∧
    (∀ (n : Nat) (s : List Char), 0 < n → s.length < n →
      ∃ e, ReadValue ('$' :: (natRepr n ++ '\r' :: '\n' :: s)) = .error e ∧
        (e = .eof ∨ e = .unexpectedEof)) := by
  refine ⟨?_, ?_, fun h => GoAny.noConfusion h, ?_, ?_⟩
  · intro rest
    exact rv_bulk_null _ (readLine_append (l := ['-', '1']) (by decide) rest) (by decide)
  · intro rest
    exact rv_bulk_zero _ (readLine_append (l := ['0']) (by decide) _)
      (by decide) (readLine_append (l := []) (by decide) rest)
  · intro n payload rest hn hlen
    have h1 : readLine (natRepr n ++ '\r' :: '\n' :: (payload ++ '\r' :: '\n' :: rest)) =
        .ok (natRepr n, payload ++ '\r' :: '\n' :: rest) :=
      readLine_append natRepr_no_lf _
    have hp : 0 < atoi (natRepr n) := by rw [atoi_natRepr]; exact_mod_cast hn
    have hr : readN (atoi (natRepr n)).toNat (payload ++ '\r' :: '\n' :: rest) =
        .ok (payload, '\r' :: '\n' :: rest) := by
      rw [atoi_natRepr]
      simpa [hlen] using readN_append (p := payload) ('\r' :: '\n' :: rest)
    exact rv_bulk_pos _ h1 hp hr (readLine_append (l := []) (by decide) rest)
  · intro n s hn hshort
    have h1 : readLine (natRepr n ++ '\r' :: '\n' :: s) = .ok (natRepr n, s) :=
      readLine_append natRepr_no_lf _
    have hp : 0 < atoi (natRepr n) := by rw [atoi_natRepr]; exact_mod_cast hn
    have hr : readN (atoi (natRepr n)).toNat s =
        .error (if s.length = 0 then .eof else .unexpectedEof) := by
      rw [atoi_natRepr]
      rw [readN, if_neg (by simpa using by omega)]
      split <;> rfl
    refine ⟨_, rv_bulk_short _ h1 hp hr, ?_⟩
    split <;> simp

/-- C3: a successfully decoded array has exactly as many elements as its
header line declared, and a stream that ends before the declared count is
satisfied (here: count 3 followed by only two well-formed sub-elements)
makes the whole decode fail with the sub-decode's error instead of
returning a short array. -/
theorem c3_array_count_enforced :
    (∀ (s line s2 rest : List Char) (t : Char) (xs : List TypedVal),
      readLine s = .ok (line, s2) →
      ReadValue ('*' :: s) = .ok ((t, .arr xs), rest) →
      (xs.length : Int) = atoi line) ∧
    ReadValue ("*3\r\n+a\r\n+b\r\n".toList) = .error .eof := by
  refine ⟨?_, rfl⟩
  intro s line s2 rest t xs hline h
  rw [ReadValue] at h
  by_cases hm : atoi line < 0
  · rw [show ('*' :: s).length + 1 = s.length + 1 + 1 by simp,
      rv_arr_neg _ hline hm] at h
    cases h
  · cases hl : readListF (readValueF (s.length + 1)) (atoi line).toNat s2 with
    | error e =>
      rw [show ('*' :: s).length + 1 = s.length + 1 + 1 by simp,
        rv_arr_err _ hline hm hl] at h
      cases h
    | ok q =>
      obtain ⟨vs, r2⟩ := q
      rw [show ('*' :: s).length + 1 = s.length + 1 + 1 by simp,
        rv_arr_ok _ hline hm hl] at h
      have hxs : vs = xs := by
        have := (Except.ok.injEq _ _ ▸ h :)
        have := (Prod.mk.injEq _ _ _ _ ▸ this :).1
        have := (Prod.mk.injEq _ _ _ _ ▸ this :).2
        exact (GoAny.arr.injEq _ _ ▸ this :)
      have hlen : vs.length = (atoi line).toNat := readListF_length hl
      rw [← hxs, hlen]
      omega

/-- C6: the decoder fails with the `unknown response type` error carrying a
tag byte exactly when that tag byte is outside `{+ - : $ *}` — immediately
for the stream's own leading byte, and never for a known tag, at any
nesting depth.  An Integer reply is parsed leniently: whatever the line's
content, decoding succeeds with the best-effort `Atoi` value (`0` for
non-numeric text such as `hello`). -/
theorem c6_unknown_tag_and_lenient_int :
    (∀ (c : Char) (s : List Char),
      ReadValue (c :: s) = .error (.unknownType c) ↔ c ∉ ['+', '-', ':', '$', '*']) ∧
    (∀ (s line s2 : List Char), readLine s = .ok (line, s2) →
      ReadValue (':' :: s) = .ok ((':', .intv (atoi line)), s2)) ∧
    ReadValue (":hello\r\n".toList) = .ok ((':', .intv 0), []) := by
  refine ⟨fun c s => ⟨fun h => ?_, fun h => ?_⟩, fun s line s2 h => ?_, rfl⟩
  · exact rv_unknownType_not_tag _ h
  · exact rv_unknown _ s h
  · exact rv_int _ h

/-- Witness for C2 at concrete inputs: `$5` with payload `hello`, and `$5`
with only three payload bytes before the end of the stream. -/
theorem c2_bulk_string_decode_witness :
    ReadValue ('$' :: (natRepr 5 ++ '\r' :: '\n' ::
        ("hello".toList ++ '\r' :: '\n' :: []))) =
      .ok (('$', .str "hello".toList), []) ∧
    ∃ e, ReadValue ('$' :: (natRepr 5 ++ '\r' :: '\n' :: "hel".toList)) = .error e ∧
      (e = .eof ∨ e = .unexpectedEof) :=
  ⟨c2_bulk_string_decode.2.2.2.1 5 "hello".toList [] (by decide) (by decide),
   c2_bulk_string_decode.2.2.2.2 5 "hel".toList (by decide) (by decide)⟩

/-- Witness for C3 at a concrete two-element array reply. -/
theorem c3_array_count_enforced_witness :
    (([(('+' : Char), GoAny.str ['a']), (('+' : Char), GoAny.str ['b'])].length : Nat) : Int) =
      atoi "2".toList :=
  c3_array_count_enforced.1 "2\r\n+a\r\n+b\r\n".toList "2".toList
    "+a\r\n+b\r\n".toList [] '*'
    [(('+' : Char), GoAny.str ['a']), (('+' : Char), GoAny.str ['b'])] rfl rfl

/-- Witness for C6 at concrete inputs: tag byte `@` is rejected as an
unknown response type, and `:hello` decodes leniently. -/
theorem c6_unknown_tag_and_lenient_int_witness :
    ReadValue ('@' :: "x\r\n".toList) = .error (.unknownType '@') ∧
    ReadValue (':' :: "hello\r\n".toList) =
      .ok (((':' : Char), GoAny.intv (atoi "hello".toList)), []) :=
  ⟨(c6_unknown_tag_and_lenient_int.1 '@' "x\r\n".toList).mpr (by decide),
   c6_unknown_tag_and_lenient_int.2.1 "hello\r\n".toList "hello".toList [] rfl⟩

/-! ## The round-trip property (C4) -/

theorem respEncodeList_mem_le {x : TypedVal} {xs : List TypedVal} (hx : x ∈ xs) :
    (respEncode x).length ≤ (respEncodeList xs).length := by
  induction xs with
  | nil => cases hx
  | cons y ys ih =>
    rw [respEncodeList]
    rcases List.mem_cons.mp hx with rfl | hx'
    · simp
    · calc (respEncode x).length ≤ (respEncodeList ys).length := ih hx'
        _ ≤ _ := by simp

theorem natRepr_length_pos (n : Nat) : 1 ≤ (natRepr n).length := by
  cases hh : natRepr n with
  | nil => exact absurd hh (natRepr_ne_nil n)
  | cons c cs => simp

/-- The element loop decodes the concatenated encodings of a list of
well-formed trees back to that list, given a decoder that does so for each
element. -/
theorem readListF_encode {f : Nat}
    (hf : ∀ v, WfEnc v → ∀ rest : List Char, (respEncode v).length ≤ f →
      readValueF f (respEncode v ++ rest) = .ok (v, rest)) :
    ∀ (xs : List TypedVal), (∀ x ∈ xs, WfEnc x) →
      (∀ x ∈ xs, (respEncode x).length ≤ f) →
      ∀ rest : List Char,
        readListF (readValueF f) xs.length (respEncodeList xs ++ rest) = .ok (xs, rest) := by
  intro xs
  induction xs with
  | nil =>
    intro _ _ rest
    rw [respEncodeList]
    simp [readListF]
  | cons x ys ih =>
    intro hwf hle rest
    rw [respEncodeList, List.length_cons, readListF, List.append_assoc]
    simp only [hf x (hwf x (List.mem_cons_self x ys)) _ (hle x (List.mem_cons_self x ys)),
      exc_bind_ok,
      ih (fun a ha => hwf a (List.mem_cons_of_mem _ ha))
        (fun a ha => hle a (List.mem_cons_of_mem _ ha)) rest, exc_pure]

/-- Main round-trip induction: with fuel at least the encoding's length, the
decoder inverts the hand-constructed encoding of any well-formed tree and
leaves exactly the appended rest of the stream. -/
theorem decode_encode (f : Nat) :
    ∀ (v : TypedVal), WfEnc v → ∀ rest : List Char,
      (respEncode v).length ≤ f →
      readValueF f (respEncode v ++ rest) = .ok (v, rest) := by
  induction f using Nat.strong_induction_on with
  | _ f ih =>
    intro v hwf rest hlen
    cases hwf with
    | simple s hr hn =>
      have he : respEncode ('+', .str s) = '+' :: (s ++ ['\r', '\n']) := by
        rw [respEncode]; rfl
      rw [he] at hlen ⊢
      obtain ⟨f', rfl⟩ : ∃ f', f = f' + 1 := ⟨f - 1, by simp at hlen; omega⟩
      rw [List.cons_append, List.append_assoc]
      exact rv_simple f' (readLine_append hn rest)
    | errv s hr hn =>
      have he : respEncode ('-', .str s) = '-' :: (s ++ ['\r', '\n']) := by
        rw [respEncode]; rfl
      rw [he] at hlen ⊢
      obtain ⟨f', rfl⟩ : ∃ f', f = f' + 1 := ⟨f - 1, by simp at hlen; omega⟩
      rw [List.cons_append, List.append_assoc]
      exact rv_errline f' (readLine_append hn rest)
    | intv i h1 h2 =>
      have he : respEncode (':', .intv i) = ':' :: (intRepr i ++ ['\r', '\n']) := by
        rw [respEncode]
      rw [he] at hlen ⊢
      obtain ⟨f', rfl⟩ : ∃ f', f = f' + 1 := ⟨f - 1, by simp at hlen; omega⟩
      rw [List.cons_append, List.append_assoc]
      rw [show ((':' : Char), GoAny.intv i) = ((':' : Char), GoAny.intv (atoi (intRepr i)))
        by rw [atoi_intRepr]]
      exact rv_int f' (readLine_append intRepr_no_lf rest)
    | bulk s =>
      have he : respEncode ('$', .str s) =
          '$' :: (natRepr s.length ++ ['\r', '\n'] ++ s ++ ['\r', '\n']) := by
        rw [respEncode]; rfl
      rw [he] at hlen ⊢
      obtain ⟨f', rfl⟩ : ∃ f', f = f' + 1 := ⟨f - 1, by simp at hlen; omega⟩
      have hassoc : (natRepr s.length ++ ['\r', '\n'] ++ s ++ ['\r', '\n']) ++ rest =
          natRepr s.length ++ '\r' :: '\n' :: (s ++ '\r' :: '\n' :: rest) := by
        simp
      rw [List.cons_append, hassoc]
      cases hs : s with
      | nil =>
        have hl2 : readLine ('\r' :: '\n' :: rest) = .ok ([], rest) :=
          readLine_append (l := []) (by simp) rest
        have h1 : readLine (natRepr ([] : List Char).length ++
            '\r' :: '\n' :: ([] ++ '\r' :: '\n' :: rest)) =
            .ok (natRepr 0, [] ++ '\r' :: '\n' :: rest) := readLine_append natRepr_no_lf _
        exact rv_bulk_zero f' h1 (by rw [atoi_natRepr]; rfl) (by simpa using hl2)
      | cons c cs =>
        rw [← hs]
        have hpos : 0 < s.length := by rw [hs]; simp
        have h1 : readLine (natRepr s.length ++ '\r' :: '\n' :: (s ++ '\r' :: '\n' :: rest)) =
            .ok (natRepr s.length, s ++ '\r' :: '\n' :: rest) :=
          readLine_append natRepr_no_lf _
        have hp : 0 < atoi (natRepr s.length) := by
          rw [atoi_natRepr]; exact_mod_cast hpos
        have hrd : readN (atoi (natRepr s.length)).toNat (s ++ '\r' :: '\n' :: rest) =
            .ok (s, '\r' :: '\n' :: rest) := by
          rw [atoi_natRepr]
          simpa using readN_append (p := s) ('\r' :: '\n' :: rest)
        exact rv_bulk_pos f' h1 hp hrd (readLine_append (l := []) (by simp) rest)
    | bulkNull =>
      have he : respEncode ('$', .null) = '$' :: ('-' :: '1' :: '\r' :: '\n' :: []) := by
        rw [respEncode]
        rfl
      rw [he] at hlen ⊢
      obtain ⟨f', rfl⟩ : ∃ f', f = f' + 1 := ⟨f - 1, by simp at hlen; omega⟩
      rw [List.cons_append]
      exact rv_bulk_null f'
        (by simpa using readLine_append (l := ['-', '1']) (by decide) rest) (by decide)
    | arr xs hxs =>
      have he : respEncode ('*', .arr xs) =
          '*' :: (natRepr xs.length ++ ['\r', '\n'] ++ respEncodeList xs) := by
        rw [respEncode]
      rw [he] at hlen ⊢
      have hlen' : (natRepr xs.length).length + 2 + (respEncodeList xs).length + 1 ≤ f := by
        simp at hlen
        omega
      obtain ⟨f', rfl⟩ : ∃ f', f = f' + 1 := ⟨f - 1, by omega⟩
      have helem : ∀ x ∈ xs, (respEncode x).length ≤ f' := by
        intro x hx
        have h1 := respEncodeList_mem_le hx
        have h2 := natRepr_length_pos xs.length
        omega
      have hassoc : (natRepr xs.length ++ ['\r', '\n'] ++ respEncodeList xs) ++ rest =
          natRepr xs.length ++ '\r' :: '\n' :: (respEncodeList xs ++ rest) := by
        simp
      rw [List.cons_append, hassoc]
      have h1 : readLine (natRepr xs.length ++ '\r' :: '\n' :: (respEncodeList xs ++ rest)) =
          .ok (natRepr xs.length, respEncodeList xs ++ rest) :=
        readLine_append natRepr_no_lf _
      have hm : ¬ atoi (natRepr xs.length) < 0 := by
        rw [atoi_natRepr]; omega
      have hl : readListF (readValueF f') (atoi (natRepr xs.length)).toNat
          (respEncodeList xs ++ rest) = .ok (xs, rest) := by
        rw [atoi_natRepr]
        exact_mod_cast readListF_encode
          (fun v hv r hr => ih f' (Nat.lt_succ_self f') v hv r hr) xs hxs helem rest
      exact rv_arr_ok f' h1 hm hl

/-- C4 (counterexample): the claim's round-trip ranges over all null
markers, and the null array's wire encoding — hand-constructed per the
grammar — is `*-1\r\n`; decoding it does not return the null-array tree
(the decoder panics on the negative count), so the round-trip fails at this
concrete input. -/
theorem c4_roundtrip_counterexample :
    respEncode ('*', GoAny.null) = "*-1\r\n".toList ∧
    ReadValue (respEncode ('*', GoAny.null)) = .error .makeslicePanic ∧
    ReadValue (respEncode ('*', GoAny.null)) ≠
      .ok ((('*' : Char), GoAny.null), []) := by
  have he : respEncode ('*', GoAny.null) = "*-1\r\n".toList := by
    rw [respEncode]; rfl
  refine ⟨he, ?_, ?_⟩
  · rw [he]; rfl
  · rw [he]
    intro h
    rw [show ReadValue ("*-1\r\n".toList) = .error .makeslicePanic from rfl] at h
    exact Except.noConfusion h

/-- C4 (amended): for every tree whose null markers are bulk-string nulls
only (no null-array marker — see the counterexample), and every valid
hand-constructed encoding of it per the wire grammar, decoding the encoding
returns a tree equal to the original in type, payload, nesting and nulls,
and leaves the stream positioned immediately after the encoding. -/
theorem c4_roundtrip_amended (v : TypedVal) (hwf : WfEnc v) (rest : List Char) :
    ReadValue (respEncode v ++ rest) = .ok (v, rest) := by
  show readValueF ((respEncode v ++ rest).length + 1) (respEncode v ++ rest) = .ok (v, rest)
  exact decode_encode _ v hwf rest (by simp; omega)

/-- Witness for C4 at a concrete nested tree exercising all five types and
both remaining null markers, with trailing stream content. -/
theorem c4_roundtrip_witness :
    ReadValue (respEncode ('*', GoAny.arr
        [(('$' : Char), GoAny.str "hi".toList), (('$' : Char), GoAny.null),
         ((':' : Char), GoAny.intv (-5)), (('+' : Char), GoAny.str "OK".toList),
         (('*' : Char), GoAny.arr [(('-' : Char), GoAny.str "ERR x".toList)])]) ++
      "Z".toList) =
    .ok ((('*' : Char), GoAny.arr
        [(('$' : Char), GoAny.str "hi".toList), (('$' : Char), GoAny.null),
         ((':' : Char), GoAny.intv (-5)), (('+' : Char), GoAny.str "OK".toList),
         (('*' : Char), GoAny.arr [(('-' : Char), GoAny.str "ERR x".toList)])]),
      "Z".toList) := by
  apply c4_roundtrip_amended
  refine WfEnc.arr _ ?_
  intro x hx
  fin_cases hx
  · exact WfEnc.bulk _
  · exact WfEnc.bulkNull
  · exact WfEnc.intv _ (by norm_num) (by norm_num)
  · exact WfEnc.simple _ (by decide) (by decide)
  · refine WfEnc.arr _ ?_
    intro y hy
    fin_cases hy
    exact WfEnc.errv _ (by decide) (by decide)

/-! ## Formatting (C5) -/

/-- The element loop of `PrintVal`, re-expressed over the enumerated list:
each element is rendered by one recursive `PrintVal` call, prefixed by its
ordinal and `") "` unless in raw mode. -/
theorem printElems_eq (raw : Bool) :
    ∀ (xs : List TypedVal) (i : Nat),
      printElems xs i raw =
        ((xs.enumFrom i).map (fun p =>
          (if raw then [] else natRepr (p.1 + 1) ++ [')', ' ']) ++
            PrintVal p.2 raw)).flatten := by
  intro xs
  induction xs with
  | nil => intro i; rw [printElems]; simp
  | cons x ys ih =>
    intro i
    rw [printElems, List.enumFrom_cons]
    simp [ih (i + 1)]

/-- C5: the reference renderings of `PrintVal`.  A null payload prints a
single blank line in raw mode and the literal `(nil)` plus newline in
structured mode, whatever the tag; the five formatting fixtures of the spec
hold verbatim; and an array renders each element by one recursive
`PrintVal` call, prefixed in structured mode by its 1-based ordinal and
`") "` — at this and hence (by the recursion) every nesting depth — and
with no prefix in raw mode. -/
theorem c5_format_renderings :
    (∀ t : Char, PrintVal (t, .null) true = ['\n'] ∧
      PrintVal (t, .null) false = "(nil)\n".toList) ∧
    PrintVal ('+', .str "OK".toList) false = "OK\n".toList ∧
    PrintVal (':', .intv 42) false = "(integer) 42\n".toList ∧
    PrintVal ('$', .str "hello".toList) true = "hello\n".toList ∧
    PrintVal ('$', .str "hello".toList) false = "\"hello\"\n".toList ∧
    PrintVal ('*', .arr [(('$' : Char), GoAny.str ['a']), (('$' : Char), GoAny.str ['b'])])
      false = "1) \"a\"\n2) \"b\"\n".toList ∧
    (∀ (xs : List TypedVal) (raw : Bool),
      PrintVal ('*', .arr xs) raw =
        (xs.enum.map (fun p =>
          (if raw then [] else natRepr (p.1 + 1) ++ [')', ' ']) ++
            PrintVal p.2 raw)).flatten) := by
  refine ⟨fun t => ⟨by simp [PrintVal], by simp [PrintVal]⟩, ?_, ?_, ?_, ?_, ?_, ?_⟩
  · simp [PrintVal]
  · simp [PrintVal, intRepr, natRepr, natReprLE, digitChar]
  · simp [PrintVal]
  · simp [PrintVal, quoteGo, quoteChar]
  · simp [PrintVal, printElems, quoteGo, quoteChar, natRepr, natReprLE, digitChar]
  · intro xs raw
    rw [PrintVal]
    simp [printElems_eq raw xs 0, List.enum]

/-! ## Session claims (C7, C8, C9, C10) -/

/-- C7 (counterexample): `ExecPrint` of `SELECT 3` with the tracked index at
`2` and an Error-typed reply leaves the index at `2`; it is not reset to `0`
as the claim states.  (`ExecPrint` compares only the reply's text against
`OK`; nothing in it ever writes `0`.) -/
theorem c7_select_counterexample :
    execPrintDb "SELECT 3".toList
        (('-' : Char), GoAny.str "ERR DB index is out of range".toList) 2 =
      .newDb 2 ∧
    execPrintDb "SELECT 3".toList
        (('-' : Char), GoAny.str "ERR DB index is out of range".toList) 2 ≠
      .newDb 0 := by
  constructor
  · rfl
  · intro h
    rw [show execPrintDb "SELECT 3".toList
        (('-' : Char), GoAny.str "ERR DB index is out of range".toList) 2 =
      .newDb 2 from rfl] at h
    have h2 : (2 : Int) = 0 := DbEffect.newDb.inj h
    exact absurd h2 (by norm_num)

/-- C7 (amended): after `ExecPrint` of a command whose first token folds to
`select`, a reply whose text is exactly `OK` sets the tracked index to the
best-effort parse of the command's second token (the original command text,
not the protocol reply); a reply whose text is not `OK` — in particular any
ordinary Error reply — leaves the tracked index unchanged.  The reset to
`0` on a failed SELECT happens only in the connect-time handshake
`selectDb`, which zeroes `args.Db` on an Error-typed reply. -/
theorem c7_select_db_tracking :
    (∀ (input cmdw arg : List Char) (tl : List (List Char)) (db : Int),
      fields input = cmdw :: arg :: tl →
      equalFold cmdw "select".toList = true →
      execPrintDb input (('+' : Char), GoAny.str "OK".toList) db = .newDb (atoi arg)) ∧
    (∀ (input : List Char) (t : Char) (s : List Char) (db : Int),
      s ≠ "OK".toList →
      execPrintDb input (t, GoAny.str s) db = .newDb db) ∧
    (∀ (db : Int) (e : List Char), db ≠ 0 →
      selectDb db (.ok (('-' : Char), GoAny.str e)) = (0, none)) := by
  refine ⟨?_, ?_, ?_⟩
  · intro input cmdw arg tl db hfields hfold
    rw [execPrintDb, if_pos (by rw [isCmd, hfields]; exact hfold)]
    simp [hfields]
  · intro input t s db hs
    rw [execPrintDb]
    split
    · show (if s = "OK".toList then
          match List.drop 1 (fields input) with
          | arg :: _ => DbEffect.newDb (atoi arg)
          | [] => DbEffect.goPanic
        else DbEffect.newDb db) = DbEffect.newDb db
      rw [if_neg hs]
    · rfl
  · intro db e hdb
    rw [selectDb, if_neg hdb]
    rfl

/-- Witness for C7's amended claim at concrete inputs. -/
theorem c7_select_db_tracking_witness :
    execPrintDb "SELECT 3".toList (('+' : Char), GoAny.str "OK".toList) 2 =
      .newDb (atoi "3".toList) ∧
    execPrintDb "select 5".toList (('-' : Char), GoAny.str "ERR bad".toList) 7 =
      .newDb 7 ∧
    selectDb 3 (.ok (('-' : Char), GoAny.str "ERR auth".toList)) = (0, none) :=
  ⟨c7_select_db_tracking.1 "SELECT 3".toList "SELECT".toList "3".toList [] 2
      (by rfl) (by rfl),
   c7_select_db_tracking.2.1 "select 5".toList '-' "ERR bad".toList 7 (by decide),
   c7_select_db_tracking.2.2 3 "ERR auth".toList (by norm_num)⟩

/-- C10: `Connect`'s return value reports only dial/TLS establishment
failures.  When the dial succeeds, `Connect` returns no error and the
session is marked connected, whatever the outcomes of the AUTH and SELECT
handshake steps (their error, computed on lines 56–59, is dead: line 61
returns `nil`); when the dial fails, that error is returned and the session
stays disconnected. -/
theorem c10_connect_error_scope :
    (∀ authRes selRes : Option SessionErr,
      Connect none authRes selRes = (none, true)) ∧
    (∀ (e : SessionErr) (authRes selRes : Option SessionErr),
      Connect (some e) authRes selRes = (some e, false)) :=
  ⟨fun _ _ => rfl, fun _ _ _ => rfl⟩

/-- The loop from iteration `i` when every remaining execution succeeds:
one exec event per remaining iteration, a sleep after an iteration exactly
when it is not the last one and the interval is positive, and a `nil`
return. -/
theorem repeatLoop_all_ok (res : Nat → Option SessionErr) (rep : Int) (pause : Bool) :
    ∀ (d i : Nat), rep = (i : Int) + d →
      (∀ j, i ≤ j → j < i + d → res j = none) →
      repeatLoop res rep pause i =
        (((List.range' i d).map (fun j =>
            RunEv.exec j ::
              (if (j : Int) < rep - 1 ∧ pause then [RunEv.sleep] else []))).flatten,
          none) := by
  intro d
  induction d with
  | zero =>
    intro i hrep _
    rw [repeatLoop, dif_neg (by omega)]
    simp
  | succ d ih =>
    intro i hrep hok
    rw [repeatLoop, dif_pos (by omega), hok i le_rfl (by omega),
      ih (i + 1) (by push_cast; push_cast at hrep; omega)
        (fun j h1 h2 => hok j (by omega) (by omega)),
      List.range'_succ]
    simp

/-- The loop from iteration `i` when the `k`-th execution is the first to
fail: the trace ends at `exec k` with no trailing sleep, the error is
returned, and no later iteration runs. -/
theorem repeatLoop_fail (res : Nat → Option SessionErr) (rep : Int) (pause : Bool)
    (k : Nat) (e : SessionErr) (hk : (k : Int) < rep) (hke : res k = some e) :
    ∀ (d i : Nat), k = i + d →
      (∀ j, i ≤ j → j < k → res j = none) →
      repeatLoop res rep pause i =
        (((List.range' i d).map (fun j =>
            RunEv.exec j ::
              (if (j : Int) < rep - 1 ∧ pause then [RunEv.sleep] else []))).flatten
          ++ [RunEv.exec k], some e) := by
  intro d
  induction d with
  | zero =>
    intro i hi _
    have hik : i = k := by omega
    subst hik
    rw [repeatLoop, dif_pos (by omega), hke]
    simp
  | succ d ih =>
    intro i hi hok
    rw [repeatLoop, dif_pos (by omega), hok i le_rfl (by omega),
      ih (i + 1) (by omega) (fun j h1 h2 => hok j (by omega) h2),
      List.range'_succ]
    simp

/-- C8 (counterexample): a repeat count of `0` does not execute the command
zero times, as "exactly N times" would require — `singleCmd` special-cases
`args.Repeat == 0` and executes the command once, outside the loop. -/
theorem c8_repeat_counterexample :
    repeatRun (fun _ => none) 0 false = ([RunEv.exec 0], none) ∧
    repeatRun (fun _ => none) 0 false ≠ ([], none) := by
  refine ⟨rfl, fun h => ?_⟩
  rw [show repeatRun (fun _ => none) 0 false = ([RunEv.exec 0], none) from rfl] at h
  exact List.noConfusion (congrArg Prod.fst h)

/-- C8 (amended): for every repeat count `N ≥ 1` and interval, the runner
executes the command exactly `N` times, pausing after an execution exactly
when it is not the last one and the interval is positive — so never after
the `N`-th — and aborts the remaining repetitions immediately, returning
the error, as soon as an execution fails: the trace then ends at the
failing `exec k` with no trailing sleep.  (A repeat count of `0` instead
executes the command once, outside the loop — see the counterexample.) -/
theorem c8_repeat_with_interval (res : Nat → Option SessionErr) (N : Nat)
    (pause : Bool) (hN : 1 ≤ N) :
    ((∀ i, i < N → res i = none) →
      repeatRun res (N : Int) pause =
        (((List.range N).map (fun i =>
            RunEv.exec i :: (if i + 1 < N ∧ pause then [RunEv.sleep] else []))).flatten,
          none)) ∧
    (∀ (k : Nat) (e : SessionErr), k < N → res k = some e →
      (∀ i, i < k → res i = none) →
      repeatRun res (N : Int) pause =
        (((List.range k).map (fun i =>
            RunEv.exec i :: (if i + 1 < N ∧ pause then [RunEv.sleep] else []))).flatten
          ++ [RunEv.exec k], some e)) := by
  have hfun : (fun j : Nat => RunEv.exec j ::
        (if (j : Int) < (N : Int) - 1 ∧ pause then [RunEv.sleep] else []))
      = (fun j : Nat => RunEv.exec j ::
        (if j + 1 < N ∧ pause then [RunEv.sleep] else [])) := by
    funext j
    congr 1
    have hiff : ((j : Int) < (N : Int) - 1 ∧ pause = true) ↔
        (j + 1 < N ∧ pause = true) := by
      constructor
      · rintro ⟨h1, h2⟩
        exact ⟨by omega, h2⟩
      · rintro ⟨h1, h2⟩
        exact ⟨by omega, h2⟩
    rw [if_congr hiff rfl rfl]
  constructor
  · intro hok
    rw [repeatRun, if_neg (by omega), List.range_eq_range',
      repeatLoop_all_ok res N pause N 0 (by push_cast; ring)
        (fun j h1 h2 => hok j (by omega)), hfun]
  · intro k e hkN hke hok
    rw [repeatRun, if_neg (by omega), List.range_eq_range',
      repeatLoop_fail res N pause k e (by exact_mod_cast hkN) hke k 0 (by omega)
        (fun j h1 h2 => hok j h2), hfun]

/-- Witness for C8's amended claim: two successful runs with a positive
interval sleep once, between them; with a failure at the second of three
executions the third never runs, the trace ends at the failing execution,
and the error is returned. -/
theorem c8_repeat_with_interval_witness :
    repeatRun (fun _ => none) ((2 : Nat) : Int) true =
      ([RunEv.exec 0, RunEv.sleep, RunEv.exec 1], none) ∧
    repeatRun (fun i => if i = 1 then some .ioErr else none) ((3 : Nat) : Int) false =
      ([RunEv.exec 0, RunEv.exec 1], some .ioErr) := by
  constructor
  · rw [(c8_repeat_with_interval (fun _ => none) 2 true (by norm_num)).1
      (fun i _ => rfl)]
    decide
  · rw [(c8_repeat_with_interval (fun i => if i = 1 then some .ioErr else none) 3 false
        (by norm_num)).2 1 .ioErr (by norm_num) rfl
      (fun i hi => by have h0 : i = 0 := by omega
                      subst h0
                      rfl)]
    decide

/-- One iteration of the scan loop on a well-formed SCAN reply
`[cursor:BulkString, keys:Array]`: the request is issued, every key of the
page is printed, and the loop either stops (returned cursor text `"0"`) or
continues with the returned cursor. -/
theorem scanRun_cons_wf (pattern : List Char) (cnt : Int) (cursor c : List Char)
    (keys : List TypedVal) (rest : List (Except SessionErr TypedVal)) :
    scanRun pattern cnt cursor ((Except.ok ((('*' : Char), GoAny.arr
        [(('$' : Char), GoAny.str c), (('*' : Char), GoAny.arr keys)]) : TypedVal)) :: rest) =
      if c = ['0'] then
        (.req (scanCmd cursor pattern cnt) :: keys.map ScanEv.key, none)
      else
        (.req (scanCmd cursor pattern cnt) :: (keys.map ScanEv.key ++
          (scanRun pattern cnt c rest).1), (scanRun pattern cnt c rest).2) := by
  by_cases hc : c = ['0'] <;> simp [scanRun, hc]

/-- C9: over any finite sequence of well-formed SCAN replies (each a
2-element array `[cursor:BulkString, keys:Array]`), the pagination loop
produces exactly the trace described by the claim — it issues
`SCAN <cursor> MATCH <pattern> COUNT <count>`, prints every key of the
reply's key-array in page order before the next request is issued, feeds
each reply's cursor text into the next request, and stops at the first
reply whose cursor text is `"0"` — and it ends successfully precisely when
such a reply exists (otherwise it would keep asking and, the stream being
finite, ends in an I/O failure). -/
theorem c9_scan_pagination (pattern : List Char) (cnt : Int) :
    ∀ (pages : List (List Char × List TypedVal)) (cursor : List Char),
      (scanRun pattern cnt cursor (pages.map (fun p =>
          (Except.ok ((('*' : Char), GoAny.arr
            [(('$' : Char), GoAny.str p.1), (('*' : Char), GoAny.arr p.2)]) : TypedVal) :
            Except SessionErr TypedVal)))).1 =
        scanClaimTrace pattern cnt cursor pages ∧
      ((scanRun pattern cnt cursor (pages.map (fun p =>
          (Except.ok ((('*' : Char), GoAny.arr
            [(('$' : Char), GoAny.str p.1), (('*' : Char), GoAny.arr p.2)]) : TypedVal) :
            Except SessionErr TypedVal)))).2 = none ↔
        ∃ p ∈ pages, p.1 = ['0']) := by
  intro pages
  induction pages with
  | nil =>
    intro cursor
    constructor
    · rfl
    · simp [scanRun, scanClaimTrace]
  | cons p rest ih =>
    intro cursor
    obtain ⟨c, keys⟩ := p
    rw [List.map_cons, scanRun_cons_wf]
    by_cases hc : c = ['0']
    · rw [if_pos hc]
      constructor
      · rw [scanClaimTrace, if_pos hc]
        simp
      · exact ⟨fun _ => ⟨(c, keys), List.mem_cons_self _ _, hc⟩, fun _ => rfl⟩
    · rw [if_neg hc]
      constructor
      · rw [scanClaimTrace, if_neg hc, (ih c).1]
      · rw [show ((ScanEv.req (scanCmd cursor pattern cnt) :: (keys.map ScanEv.key ++
            (scanRun pattern cnt c (rest.map (fun p =>
              (Except.ok ((('*' : Char), GoAny.arr
                [(('$' : Char), GoAny.str p.1), (('*' : Char), GoAny.arr p.2)]) : TypedVal) :
                Except SessionErr TypedVal)))).1),
            (scanRun pattern cnt c (rest.map (fun p =>
              (Except.ok ((('*' : Char), GoAny.arr
                [(('$' : Char), GoAny.str p.1), (('*' : Char), GoAny.arr p.2)]) : TypedVal) :
                Except SessionErr TypedVal)))).2).2 =
          (scanRun pattern cnt c (rest.map (fun p =>
              (Except.ok ((('*' : Char), GoAny.arr
                [(('$' : Char), GoAny.str p.1), (('*' : Char), GoAny.arr p.2)]) : TypedVal) :
                Except SessionErr TypedVal)))).2) from rfl, (ih c).2]
        constructor
        · intro hx
          obtain ⟨q, hq1, hq2⟩ := hx
          exact ⟨q, List.mem_cons_of_mem _ hq1, hq2⟩
        · rintro ⟨q, hq1, hq2⟩
          rcases List.mem_cons.mp hq1 with rfl | hq1'
          · exact absurd hq2 hc
          · exact ⟨q, hq1', hq2⟩

end RedisCli

